import Mathlib

/-!
# vaultexec — shallow embedding and verification

Shallow embedding of the `vaultexec` program (files `main.go`, `run.go`,
`vault.go`) and proofs about its supervision core: child environment
construction, the signal relay, the lease-renewal loop, and the vault
HTTP helpers.  External effects (the OS process table, the network, JSON
decoding) are passed in as explicit oracle parameters; everything else is
translated directly from the Go source.
-/

set_option maxRecDepth 4096

/-! ## Child environment (run.go, lines 22–27)

`RunWithEnvVars` builds the child environment as

    env := os.Environ()
    for k, v := range envVars {
        env = append(env, fmt.Sprintf("%s=%s", k, v))
    }
    cmd.Env = env

i.e. the parent environment list followed by the overlay map's entries
(in whatever order Go's map iteration yields them; a Go map never holds
two entries with the same key).  `os/exec` documents that when `Cmd.Env`
contains duplicate keys, only the last value in the slice for each
duplicate key is used, so the effective binding of a key is the last
entry for it in the list. -/

/-- An environment is a list of `key = value` entries, in order. -/
abbrev EnvList : Type := List (String × String)

/-- The environment slice `RunWithEnvVars` assigns to `cmd.Env`:
the parent environment followed by the overlay entries. -/
def runWithEnvVarsEnv (parent overlay : EnvList) : EnvList :=
  List.append parent overlay

/-- The effective binding of key `k` in an environment slice, per the
`os/exec` duplicate-key rule: the last entry for `k` wins. -/
def effectiveEnv (env : EnvList) (k : String) : Option String :=
  (List.find? (fun p => p.1 = k) (List.reverse env)).map (fun p => p.2)

/-- Keys of an environment list. -/
def envKeys (env : EnvList) : List String :=
  env.map (fun p => p.1)

theorem find_key_eq_of_nodup (l : EnvList) (k v : String)
    (hnd : (envKeys l).Nodup) (hmem : (k, v) ∈ l) :
    List.find? (fun p => p.1 = k) l = some (k, v) := by
  induction l with
  | nil => cases hmem
  | cons hd tl ih =>
    simp only [envKeys, List.map_cons, List.nodup_cons] at hnd
    rcases List.mem_cons.mp hmem with heq | htl
    · subst heq
      simp [List.find?]
    · have hk : hd.1 ≠ k := by
        intro hkeq
        exact hnd.1 (hkeq ▸ (List.mem_map.mpr ⟨(k, v), htl, rfl⟩))
      have hfalse : (decide (hd.1 = k)) = false := by
        simp [hk]
      rw [List.find?_cons, hfalse]
      exact ih hnd.2 htl

theorem find_key_eq_none_of_not_mem (l : EnvList) (k : String)
    (hk : k ∉ envKeys l) :
    List.find? (fun p => p.1 = k) l = none := by
  induction l with
  | nil => rfl
  | cons hd tl ih =>
    simp only [envKeys, List.map_cons, List.mem_cons] at hk
    push_neg at hk
    have hfalse : (decide (hd.1 = k)) = false := by
      simp
      exact fun h => hk.1 h.symm
    rw [List.find?_cons, hfalse]
    exact ih (by simpa [envKeys] using hk.2)

/-- C1: For every environment overlay `O` and parent environment `E`, the
effective environment `RunWithEnvVars` gives the spawned child equals `E`
with every key present in `O` bound to `O`'s value: a key bound in the
overlay is effectively bound to the overlay's value (overlay wins over a
same-named inherited variable), and a key absent from the overlay keeps
its effective binding from the parent. -/
theorem overlay_wins (parent overlay : EnvList)
    (hnd : (envKeys overlay).Nodup) :
    (∀ k v, (k, v) ∈ overlay →
      effectiveEnv (runWithEnvVarsEnv parent overlay) k = some v) ∧
    (∀ k, k ∉ envKeys overlay →
      effectiveEnv (runWithEnvVarsEnv parent overlay) k = effectiveEnv parent k) := by
  constructor
  · intro k v hmem
    have hrev : (k, v) ∈ overlay.reverse := List.mem_reverse.mpr hmem
    have hndrev : (envKeys overlay.reverse).Nodup := by
      simpa [envKeys, List.nodup_reverse] using hnd
    unfold effectiveEnv runWithEnvVarsEnv
    rw [show List.append parent overlay = parent ++ overlay from rfl,
        List.reverse_append, List.find?_append,
        find_key_eq_of_nodup overlay.reverse k v hndrev hrev]
    rfl
  · intro k hk
    have hkrev : k ∉ envKeys overlay.reverse := by
      simpa [envKeys] using hk
    unfold effectiveEnv runWithEnvVarsEnv
    rw [show List.append parent overlay = parent ++ overlay from rfl,
        List.reverse_append, List.find?_append,
        find_key_eq_none_of_not_mem overlay.reverse k hkrev]
    rfl

/-- Witness for C1 at a concrete parent and overlay: the overlay entry
`VAULT_SECRET = s3cret` overrides the parent's `VAULT_SECRET = old`, and
the untouched parent variable `HOME = /root` survives. -/
theorem overlay_wins_witness :
    ((envKeys [("VAULT_SECRET", "s3cret")]).Nodup ∧
      effectiveEnv
        (runWithEnvVarsEnv [("HOME", "/root"), ("VAULT_SECRET", "old")]
          [("VAULT_SECRET", "s3cret")]) "VAULT_SECRET" = some "s3cret") ∧
    effectiveEnv
      (runWithEnvVarsEnv [("HOME", "/root"), ("VAULT_SECRET", "old")]
        [("VAULT_SECRET", "s3cret")]) "HOME" = some "/root" := by
  constructor
  · constructor
    · decide
    · exact (overlay_wins [("HOME", "/root"), ("VAULT_SECRET", "old")]
        [("VAULT_SECRET", "s3cret")] (by decide)).1 "VAULT_SECRET" "s3cret"
        (by decide)
  · exact (overlay_wins [("HOME", "/root"), ("VAULT_SECRET", "old")]
      [("VAULT_SECRET", "s3cret")] (by decide)).2 "HOME" (by decide)

/-! ## Supervision control flow (main.go lines 59–84, run.go lines 17–62)

`main`, after the secrets are fetched (line 59), does in program order:

  1. line 64: `go func() { ... RenewVaultToken ... }()` — starts the
     lease-renewal goroutine (its first iteration sleeps 0 seconds and
     renews immediately);
  2. line 81: calls `RunWithEnvVars(cmd, vaultSecrets)`, which attempts
     `cmd.Start()` (line 30); on a start error it returns that error at
     once — before `signal.Notify` (line 37) and before the relay
     goroutine (line 47);
  3. `errCheck` (lines 13–18): on a non-`nil` error, `log.Fatal` exits
     the process with code 1; otherwise `os.Exit(0)` (line 83).

Go's `cmd.Wait()` returns `nil` exactly when the child exited with
status 0, and a non-`nil` `*ExitError` for every non-zero child exit
status, so `errCheck(RunWithEnvVars(...))` exits 1 for every non-zero
child exit code.  The model below records this sequencing as an event
trace of the main goroutine, in program order. -/

/-- Events of the supervision run, in main-goroutine program order. -/
inductive Event where
  /-- main.go line 64: the renewal goroutine is started. -/
  | renewalLoopStarted
  /-- run.go line 30: `cmd.Start()` is invoked. -/
  | childStartAttempt
  /-- run.go line 37: `signal.Notify(sigs, ...)` subscribes to signals. -/
  | signalSubscribe
  /-- run.go line 47: the signal-relay goroutine is started. -/
  | relayStarted
  /-- run.go line 61: `cmd.Wait()` blocks until the child exits. -/
  | childWait
  /-- main.go: the whole program exits with the given code. -/
  | programExit (code : Nat)
deriving DecidableEq

/-- Outcome of the child launch: `cmd.Start()` fails, or the child starts
and eventually exits with the given status code. -/
inductive StartOutcome where
  | fail
  | ok (childExitCode : Nat)
deriving DecidableEq

/-- The Go `error` value `RunWithEnvVars` can return: the `cmd.Start()`
error, or the `*ExitError` `cmd.Wait()` returns for a non-zero exit. -/
inductive RunError where
  | startErr
  | exitErr (code : Nat)
deriving DecidableEq

/-- Events `RunWithEnvVars` performs, in program order (run.go 29–61):
on a start error it returns before `signal.Notify` and before spawning
the relay goroutine; otherwise it subscribes, starts the relay and
blocks in `cmd.Wait()`. -/
def RunWithEnvVarsEvents : StartOutcome → List Event
  | .fail => [.childStartAttempt]
  | .ok _ => [.childStartAttempt, .signalSubscribe, .relayStarted, .childWait]

/-- The `error` result of `RunWithEnvVars`: the start error when the
launch fails, else the result of `cmd.Wait()` — `nil` for child exit
status 0 and an `ExitError` for any non-zero status. -/
def RunWithEnvVarsGoError : StartOutcome → Option RunError
  | .fail => some .startErr
  | .ok c => if c = 0 then none else some (.exitErr c)

/-- The exit code of the whole program (main.go 81–83): `errCheck` exits
with code 1 via `log.Fatal` on any non-`nil` error, else `os.Exit(0)`. -/
def mainExitCode (s : StartOutcome) : Nat :=
  match RunWithEnvVarsGoError s with
  | some _ => 1
  | none => 0

/-- Main-goroutine event trace from main.go line 64 onward: the renewal
goroutine is started first (line 64), then `RunWithEnvVars` runs
(line 81), then the program exits. -/
def mainEvents (s : StartOutcome) : List Event :=
  Event.renewalLoopStarted :: (RunWithEnvVarsEvents s ++ [Event.programExit (mainExitCode s)])

/-- C2 counterexample: in the run whose child launch fails, the
lease-renewal loop *has* been started — `main` starts the renewal
goroutine (whose first renewal attempt is scheduled with zero delay)
before the launch is even attempted, so a start failure does not abort
"before any renewal activity begins" and does not prevent a renewal
attempt from being started. -/
theorem start_failure_renewal_already_started :
    Event.renewalLoopStarted ∈ mainEvents .fail ∧
    mainEvents .fail = [.renewalLoopStarted, .childStartAttempt, .programExit 1] := by
  constructor
  · decide
  · rfl

/-- C2 (amended): if launching the child fails, `RunWithEnvVars` returns
the start error immediately: no signal subscription is made and no relay
goroutine is started.  The renewal goroutine, however, is started by
`main` before the launch is attempted, so renewal activity precedes the
abort. -/
theorem start_failure_aborts_before_relay :
    RunWithEnvVarsGoError .fail = some .startErr ∧
    Event.signalSubscribe ∉ RunWithEnvVarsEvents .fail ∧
    Event.relayStarted ∉ RunWithEnvVarsEvents .fail ∧
    List.indexOf Event.renewalLoopStarted (mainEvents .fail) <
      List.indexOf Event.childStartAttempt (mainEvents .fail) := by
  refine ⟨rfl, by decide, by decide, by decide⟩

/-- C5 counterexample: a child that terminates normally with exit code 7
makes the program exit with code 1, not 7 — `errCheck` collapses every
non-`nil` `cmd.Wait()` error to `log.Fatal`'s fixed exit code 1. -/
theorem child_exit_code_not_propagated :
    mainExitCode (.ok 7) ≠ 7 := by
  decide

/-- C5 (amended): when the child exits with status 0 the program exits
with 0; when the child exits with any non-zero status the program exits
with the fixed code 1 (the child's own code is not propagated); and when
supervision could not start the program exits with the non-zero code 1. -/
theorem main_exit_code_spec :
    (∀ c, mainExitCode (.ok c) = if c = 0 then 0 else 1) ∧
    mainExitCode .fail = 1 ∧ mainExitCode .fail ≠ 0 := by
  refine ⟨fun c => ?_, rfl, by decide⟩
  by_cases hc : c = 0
  · subst hc; rfl
  · simp [mainExitCode, RunWithEnvVarsGoError, hc]

/-! ## Lease-renewal loop (main.go lines 64–77)

The goroutine body is

    leaseTimeout := 0 * time.Second
    for {
        time.Sleep(leaseTimeout * time.Second)
        leaseDuration, err := RenewVaultToken(config)
        if err != nil { log.Printf(...); return }
        leaseTimeout = time.Duration(leaseDuration) / 2
    }

`leaseDuration` is an `int64` number of seconds and `time.Duration` is
an `int64` count of nanoseconds.  `time.Duration(d) / 2` is the exact
`int64` value `d / 2` (truncating division, `Int.tdiv`; no overflow).
The sleep argument `leaseTimeout * time.Second`, however, is an `int64`
*product* `(d / 2) * 10^9` that wraps modulo `2^64` (two's complement),
and `time.Sleep` of a non-positive duration returns immediately.  For
`0 ≤ d` with `d / 2 ≤ 9223372036` the product does not overflow and the
goroutine sleeps exactly `d / 2` seconds (the stray nanosecond reading
of `time.Duration(d)` is cancelled by the extra `* time.Second`); for
larger or negative `d` the slept time is *not* `d / 2` seconds.  The
model below keeps the exact `leaseTimeout` value as loop state and
records, per iteration, the nanoseconds actually slept — wrap and
negative-clamp included — paired with the result the oracle gives for
the `n`-th `RenewVaultToken` call.  The loop itself is infinite; `fuel`
bounds how many iterations we observe, so a run's attempts are exactly
the entries of the resulting trace. -/

/-- Two's-complement wrap of an integer into the `int64` range, the
result of a Go `int64` arithmetic operation that overflows. -/
def wrapInt64 (x : Int) : Int :=
  (x + 2 ^ 63) % 2 ^ 64 - 2 ^ 63

/-- Nanoseconds actually slept by
`time.Sleep(leaseTimeout * time.Second)` (main.go line 67): the `int64`
product `timeout * 10^9` wraps modulo `2^64`, and a non-positive
duration makes `time.Sleep` return immediately. -/
def sleepDurationNs (timeout : Int) : Int :=
  max 0 (wrapInt64 (timeout * 1000000000))

theorem sleepDurationNs_of_range (t : Int) (h0 : 0 ≤ t)
    (h1 : t ≤ 9223372036) : sleepDurationNs t = t * 1000000000 := by
  have hx0 : 0 ≤ t * 1000000000 := by omega
  have hx1 : t * 1000000000 < 2 ^ 63 := by omega
  unfold sleepDurationNs wrapInt64
  rw [Int.emod_eq_of_lt (by omega) (by omega)]
  omega

/-- `renewLoop oracle k timeout fuel` observes up to `fuel` iterations of
the renewal goroutine, starting at attempt index `k` with the current
`leaseTimeout` value `timeout` (the exact `int64` value of
`time.Duration(d) / 2`).  Each trace entry is one iteration: the
nanoseconds actually slept before the attempt (`sleepDurationNs`),
paired with the attempt's result.  On an error the goroutine returns —
the trace ends. -/
def renewLoop (oracle : Nat → Except String Int) (k : Nat) (timeout : Int) :
    Nat → List (Int × Except String Int)
  | 0 => []
  | fuel + 1 =>
    (sleepDurationNs timeout, oracle k) ::
      match oracle k with
      | .error _ => []
      | .ok d => renewLoop oracle (k + 1) (Int.tdiv d 2) fuel

/-- The renewal goroutine as `main` starts it: first attempt index 0,
initial `leaseTimeout` of `0 * time.Second = 0`. -/
def renewalLoopRun (oracle : Nat → Except String Int) (fuel : Nat) :
    List (Int × Except String Int) :=
  renewLoop oracle 0 0 fuel

theorem renewLoop_length_le (oracle : Nat → Except String Int)
    (j : Nat) (e : String) (hj : oracle j = .error e) :
    ∀ fuel k t, k ≤ j → (∀ m, k ≤ m → m < j → ∃ d, oracle m = .ok d) →
      (renewLoop oracle k t fuel).length ≤ j + 1 - k := by
  intro fuel
  induction fuel with
  | zero =>
    intro k t hk _
    simp [renewLoop]
  | succ n ih =>
    intro k t hk hok
    by_cases hkj : k = j
    · subst hkj
      simp [renewLoop, hj]
    · have hklt : k < j := lt_of_le_of_ne hk hkj
      obtain ⟨d, hd⟩ := hok k le_rfl hklt
      have htail := ih (k + 1) (Int.tdiv d 2) hklt
        (fun m hm hmj => hok m (le_of_lt (Nat.lt_of_succ_le hm)) hmj)
      simp only [renewLoop, hd, List.length_cons]
      omega

theorem renewLoop_length_eq (oracle : Nat → Except String Int)
    (j : Nat) (e : String) (hj : oracle j = .error e) :
    ∀ fuel k t, k ≤ j → j + 1 - k ≤ fuel →
      (∀ m, k ≤ m → m < j → ∃ d, oracle m = .ok d) →
      (renewLoop oracle k t fuel).length = j + 1 - k := by
  intro fuel
  induction fuel with
  | zero =>
    intro k t hk hfuel _
    omega
  | succ n ih =>
    intro k t hk hfuel hok
    by_cases hkj : k = j
    · subst hkj
      simp [renewLoop, hj]
    · have hklt : k < j := lt_of_le_of_ne hk hkj
      obtain ⟨d, hd⟩ := hok k le_rfl hklt
      have htail := ih (k + 1) (Int.tdiv d 2) hklt (by omega)
        (fun m hm hmj => hok m (le_of_lt (Nat.lt_of_succ_le hm)) hmj)
      simp only [renewLoop, hd, List.length_cons]
      omega

/-- C3: once a renewal attempt returns an error, the loop performs no
further renewal attempts for the remainder of the run.  If attempt `j`
is the first to fail (all earlier attempts succeed), then no matter how
long the run is observed (`fuel`), at most `j + 1` attempts are ever
performed — and with enough fuel, exactly `j + 1`: the attempts up to
and including the failing one, and nothing after (terminal `Stopped`). -/
theorem renewal_stops_after_first_error (oracle : Nat → Except String Int)
    (j : Nat) (e : String) (hj : oracle j = .error e)
    (hok : ∀ m, m < j → ∃ d, oracle m = .ok d) :
    ∀ fuel, (renewalLoopRun oracle fuel).length ≤ j + 1 ∧
      (j + 1 ≤ fuel → (renewalLoopRun oracle fuel).length = j + 1) := by
  intro fuel
  constructor
  · have := renewLoop_length_le oracle j e hj fuel 0 0 (Nat.zero_le j)
      (fun m _ hmj => hok m hmj)
    simpa [renewalLoopRun] using this
  · intro hfuel
    have := renewLoop_length_eq oracle j e hj fuel 0 0 (Nat.zero_le j)
      (by omega) (fun m _ hmj => hok m hmj)
    simpa [renewalLoopRun] using this

/-- Witness for C3: with an oracle that succeeds on attempt 0 (lease
3600) and fails on attempt 1, a run observed for 10 iterations performs
exactly 2 renewal attempts. -/
theorem renewal_stops_after_first_error_witness :
    (fun n => if n = 0 then (Except.ok 3600 : Except String Int)
      else .error "permission denied") 1 = .error "permission denied" ∧
    (renewalLoopRun
      (fun n => if n = 0 then (Except.ok 3600 : Except String Int)
        else .error "permission denied") 10).length ≤ 2 ∧
    (renewalLoopRun
      (fun n => if n = 0 then (Except.ok 3600 : Except String Int)
        else .error "permission denied") 10).length = 2 := by
  have h := renewal_stops_after_first_error
    (fun n => if n = 0 then (Except.ok 3600 : Except String Int)
      else .error "permission denied") 1 "permission denied" rfl
    (fun m hm => ⟨3600, by interval_cases m; rfl⟩) 10
  exact ⟨rfl, h.1, h.2 (by omega)⟩

theorem renewLoop_wait_half (oracle : Nat → Except String Int) :
    ∀ fuel k t i w d p2,
      (renewLoop oracle k t fuel)[i]? = some (w, Except.ok d) →
      (renewLoop oracle k t fuel)[i + 1]? = some p2 →
      p2.1 = sleepDurationNs (Int.tdiv d 2) := by
  intro fuel
  induction fuel with
  | zero =>
    intro k t i w d p2 h1 _
    simp [renewLoop] at h1
  | succ n ih =>
    intro k t i w d p2 h1 h2
    cases hok : oracle k with
    | error e =>
      simp only [renewLoop, hok] at h1 h2
      cases i with
      | zero => simp at h2
      | succ m => simp at h2
    | ok d0 =>
      simp only [renewLoop, hok] at h1 h2
      cases i with
      | zero =>
        simp only [List.getElem?_cons_zero, Option.some_inj] at h1
        have hd : d0 = d := by
          have := congrArg Prod.snd h1
          simpa using this
        subst hd
        simp only [List.getElem?_cons_succ] at h2
        cases n with
        | zero => simp [renewLoop] at h2
        | succ m =>
          simp only [renewLoop, List.getElem?_cons_zero, Option.some_inj] at h2
          exact congrArg Prod.fst h2.symm
      | succ m =>
        simp only [List.getElem?_cons_succ] at h1 h2
        exact ih (k + 1) (Int.tdiv d0 2) m w d p2 h1 h2

/-- C4 counterexample: a renewal returning the `int64`-decodable lease
duration `d = 10^11` seconds does *not* make the next wait `d / 2`
seconds.  `leaseTimeout` becomes `5·10^10`, the `int64` product
`5·10^10 * 10^9` wraps to a negative value, and `time.Sleep` of a
negative duration returns immediately: the recorded wait before the
second attempt is `0` nanoseconds, not `d / 2` seconds
(`5·10^10 · 10^9` ns). -/
theorem renewal_wait_overflow_counterexample :
    (renewalLoopRun (fun _ => (Except.ok 100000000000 : Except String Int))
        2)[1]?.map Prod.fst = some 0 ∧
    (0 : Int) ≠ Int.tdiv 100000000000 2 * 1000000000 := by
  refine ⟨?_, by decide⟩
  decide

/-- C4 (amended): the renewal loop's wait schedule.  The wait before the
first attempt is zero (renew immediately at start); and whenever attempt
`i` succeeds returning lease duration `d` seconds with `0 ≤ d` and
`d / 2 ≤ 9223372036` — i.e. the `int64` product `(d / 2) · 10^9` does
not overflow — and attempt `i + 1` occurs, the wait before attempt
`i + 1` is exactly `d / 2` seconds (`int64` truncating division),
recorded here as `(d / 2) · 10^9` nanoseconds.  In particular a renewal
returning 3600 schedules the next attempt exactly 1800 seconds later.
Outside that range the `int64` product wraps (and a non-positive result
sleeps zero), so the `d / 2` schedule does not hold there. -/
theorem renewal_wait_schedule (oracle : Nat → Except String Int) :
    (∀ fuel, 1 ≤ fuel →
      (renewalLoopRun oracle fuel).head?.map Prod.fst = some 0) ∧
    (∀ fuel i w d p2,
      (renewalLoopRun oracle fuel)[i]? = some (w, Except.ok d) →
      (renewalLoopRun oracle fuel)[i + 1]? = some p2 →
      0 ≤ d → Int.tdiv d 2 ≤ 9223372036 →
      p2.1 = Int.tdiv d 2 * 1000000000) := by
  constructor
  · intro fuel hfuel
    have h0 : sleepDurationNs 0 = 0 := by decide
    cases fuel with
    | zero => omega
    | succ n => simp [renewalLoopRun, renewLoop, h0]
  · intro fuel i w d p2 h1 h2 hd0 hd1
    have hhalf := renewLoop_wait_half oracle fuel 0 0 i w d p2 h1 h2
    have htd0 : 0 ≤ Int.tdiv d 2 := Int.tdiv_nonneg hd0 (by omega)
    rw [hhalf, sleepDurationNs_of_range (Int.tdiv d 2) htd0 hd1]

/-- Witness for C4: with every renewal succeeding with lease duration
3600, the first attempt waits 0 seconds and the second attempt is
scheduled exactly `3600 / 2 = 1800` seconds (`1.8·10^12` ns) after the
first. -/
theorem renewal_wait_schedule_witness :
    (renewalLoopRun (fun _ => (Except.ok 3600 : Except String Int)) 2).head?.map
      Prod.fst = some 0 ∧
    (renewalLoopRun (fun _ => (Except.ok 3600 : Except String Int)) 2)[1]? =
      some (1800000000000, Except.ok 3600) ∧
    ((1800000000000 : Int), (Except.ok 3600 : Except String Int)).1 =
      Int.tdiv 3600 2 * 1000000000 := by
  refine ⟨(renewal_wait_schedule _).1 2 (by omega), rfl, ?_⟩
  exact (renewal_wait_schedule
    (fun _ => (Except.ok 3600 : Except String Int))).2 2 0 0 3600
    ((1800000000000 : Int), Except.ok 3600) rfl rfl
    (by decide) (by decide)

/-! ## Signal relay (run.go lines 35–61)

`RunWithEnvVars` makes an *unbuffered* channel `sigs`, subscribes it via
`signal.Notify`, and spawns the relay goroutine

    for {
        sig := <-sigs
        err := cmd.Process.Signal(sig)
        if err != nil { log.Println(...) }   // failure never stops the loop
    }

After `cmd.Wait()` returns, the deferred `close(sigs)` (line 59) runs —
this is the code's "stop" operation.  Go channel semantics: a receive on
a closed channel with no pending value succeeds *immediately* with the
element type's zero value (`nil` for the `os.Signal` interface), and
`run.go` never calls `signal.Stop`, so the `signal.Notify` subscription
stays in force after the close.  The model below gives the channel a
pending-value sequence (the signals the relay receives from the signal
package, in order) and a closed flag, and observes the relay goroutine
for a bounded number of iterations. -/

/-- An `os.Signal` value as the relay sees it: one of the four notified
signals, or the zero value (`nil`) a receive on a closed channel yields. -/
inductive OsSignal where
  | SIGINT
  | SIGTERM
  | SIGKILL
  | SIGQUIT
  | zeroValue
deriving DecidableEq

/-- The `sigs` channel: the (ordered) sequence of values it will yield
to the receiver, and whether `close(sigs)` has been executed. -/
structure SigChannel where
  pending : List OsSignal
  closed : Bool
deriving DecidableEq

/-- Go receive `<-sigs`: the next pending value if there is one; on a
closed channel with nothing pending, the zero value, immediately and
without consuming anything; on an open empty channel, block (`none`). -/
def chanRecv (ch : SigChannel) : Option (OsSignal × SigChannel) :=
  match ch.pending with
  | s :: rest => some (s, ⟨rest, ch.closed⟩)
  | [] => if ch.closed then some (.zeroValue, ch) else none

/-- run.go line 59: the deferred `close(sigs)` that runs once
`cmd.Wait()` has returned — the code's stop operation.  It only closes
the channel; the `signal.Notify` subscription is never removed
(`signal.Stop` is not called anywhere in the program). -/
def closeSigs (ch : SigChannel) : SigChannel :=
  ⟨ch.pending, true⟩

/-- The relay goroutine (run.go lines 47–57), observed for `fuel`
iterations: receive a signal, attempt `cmd.Process.Signal(sig)` (the
`deliver` oracle — its failure is only logged and never alters control
flow), and loop.  Returns the delivery attempts made, in order. -/
def relayLoop (deliver : OsSignal → Bool) (ch : SigChannel) :
    Nat → List (OsSignal × Bool)
  | 0 => []
  | fuel + 1 =>
    match chanRecv ch with
    | none => []
    | some (s, ch2) => (s, deliver s) :: relayLoop deliver ch2 fuel

theorem relayLoop_open_channel (deliver : OsSignal → Bool) :
    ∀ (received : List OsSignal) (fuel : Nat), received.length ≤ fuel →
      (relayLoop deliver ⟨received, false⟩ fuel).map Prod.fst = received := by
  intro received
  induction received with
  | nil =>
    intro fuel _
    cases fuel with
    | zero => rfl
    | succ n => simp [relayLoop, chanRecv]
  | cons s rest ih =>
    intro fuel hlen
    cases fuel with
    | zero => simp at hlen
    | succ n =>
      simp only [relayLoop, chanRecv, List.map_cons]
      rw [ih n (by simpa using hlen)]

/-- C8: for every sequence of `N` signals the relay receives from the
signal source while the child is alive (channel open), the relay makes
exactly `N` delivery attempts to the child, carrying exactly those
signals in the same relative order — one `cmd.Process.Signal` call per
received signal, regardless of whether individual deliveries fail. -/
theorem relay_delivers_in_order (deliver : OsSignal → Bool)
    (received : List OsSignal) (fuel : Nat)
    (hfuel : received.length ≤ fuel) :
    (relayLoop deliver ⟨received, false⟩ fuel).map Prod.fst = received ∧
    (relayLoop deliver ⟨received, false⟩ fuel).length = received.length := by
  have h := relayLoop_open_channel deliver received fuel hfuel
  refine ⟨h, ?_⟩
  calc (relayLoop deliver ⟨received, false⟩ fuel).length
      = ((relayLoop deliver ⟨received, false⟩ fuel).map Prod.fst).length := by
        rw [List.length_map]
    _ = received.length := by rw [h]

/-- Witness for C8: three signals received (interrupt, terminate,
interrupt) with the middle delivery failing produce exactly three
delivery attempts in the same order. -/
theorem relay_delivers_in_order_witness :
    ([OsSignal.SIGINT, OsSignal.SIGTERM, OsSignal.SIGINT].length ≤ 5) ∧
    (relayLoop (fun s => s ≠ OsSignal.SIGTERM)
        ⟨[OsSignal.SIGINT, OsSignal.SIGTERM, OsSignal.SIGINT], false⟩ 5).map
      Prod.fst = [OsSignal.SIGINT, OsSignal.SIGTERM, OsSignal.SIGINT] ∧
    (relayLoop (fun s => s ≠ OsSignal.SIGTERM)
        ⟨[OsSignal.SIGINT, OsSignal.SIGTERM, OsSignal.SIGINT], false⟩ 5).length
      = 3 := by
  have h := relay_delivers_in_order (fun s => s ≠ OsSignal.SIGTERM)
    [OsSignal.SIGINT, OsSignal.SIGTERM, OsSignal.SIGINT] 5 (by decide)
  exact ⟨by decide, h.1, h.2⟩

/-- C7 (code divergence): after the stop operation `close(sigs)` has
run — child exited, nothing pending on the channel — the relay goroutine
does *not* stop making delivery attempts: every further receive on the
closed channel immediately yields the zero-value signal and the loop
attempts `cmd.Process.Signal` with it, once per iteration, unboundedly.
(Moreover `signal.Stop` is never called, so the OS subscription made by
`signal.Notify` also survives the close.) -/
theorem delivery_attempts_continue_after_close (deliver : OsSignal → Bool) :
    ∀ fuel, (relayLoop deliver (closeSigs ⟨[], false⟩) fuel).length = fuel ∧
      (relayLoop deliver (closeSigs ⟨[], false⟩) fuel).map Prod.fst =
        List.replicate fuel OsSignal.zeroValue := by
  intro fuel
  induction fuel with
  | zero => exact ⟨rfl, rfl⟩
  | succ n ih =>
    have h1 := ih.1
    have h2 := ih.2
    simp only [closeSigs] at h1 h2
    refine ⟨?_, ?_⟩
    · simp [relayLoop, closeSigs, chanRecv, h1]
    · simp [relayLoop, closeSigs, chanRecv, h2, List.replicate_succ]

/-! ## Vault HTTP helpers (vault.go)

The network round-trip of `makeVaultRequest` (vault.go 176–214) — request
construction, `client.Do`, and the body read — is abstracted as a
`NetResult` oracle value: a transport-level error (any of the early
`err != nil` returns) or an HTTP status code with the raw response body
(body bytes modelled as a `String`).  `json.Unmarshal` is likewise an
oracle from the body to a decoded structure or a decode error. -/

/-- Outcome of one HTTP exchange against the vault server. -/
inductive NetResult where
  | transportError (msg : String)
  | response (status : Int) (body : String)

/-- `makeVaultRequest` (vault.go 176–214): propagate transport errors;
reject an empty response body with a "vault server error … empty
response" error (the only status-code use in the function); otherwise
return the body bytes. -/
def makeVaultRequest (net : NetResult) : Except String String :=
  match net with
  | .transportError msg => .error msg
  | .response status body =>
    if body.length = 0 then
      .error ("vault server error (HTTP status " ++ toString status ++
        "): empty response")
    else
      .ok body

/-- The fields of `VaultRenewResponse` (vault.go 37–42) that
`RenewVaultToken` reads: the reported server-side errors and
`auth.lease_duration` (an `int64` number of seconds). -/
structure VaultRenewResponse where
  errors : List String
  leaseDuration : Int

/-- `RenewVaultToken` (vault.go 269–291): one `POST` to
`v1/auth/token/renew-self`; any `makeVaultRequest` error or unmarshal
error propagates, a response with a non-empty `errors` list becomes a
"vault server error" error, and otherwise the lease duration is
returned. -/
def RenewVaultToken (net : NetResult)
    (unmarshal : String → Except String VaultRenewResponse) :
    Except String Int :=
  match makeVaultRequest net with
  | .error e => .error e
  | .ok body =>
    match unmarshal body with
    | .error e => .error e
    | .ok resp =>
      if 0 < resp.errors.length then
        .error ("vault server error: " ++ String.intercalate "," resp.errors)
      else
        .ok resp.leaseDuration

/-- C6: `RenewVaultToken` returns an error for every non-success
response from the credential service — a transport failure, an empty
response body, and a response whose reported `errors` list is non-empty
each yield an error, never a lease duration. -/
theorem renew_token_error_cases
    (unmarshal : String → Except String VaultRenewResponse) :
    (∀ msg, ∃ e, RenewVaultToken (.transportError msg) unmarshal = .error e) ∧
    (∀ status, ∃ e, RenewVaultToken (.response status "") unmarshal = .error e) ∧
    (∀ status body resp, unmarshal body = .ok resp → resp.errors ≠ [] →
      ∃ e, RenewVaultToken (.response status body) unmarshal = .error e) := by
  refine ⟨fun msg => ⟨msg, rfl⟩, fun status => ⟨_, rfl⟩, ?_⟩
  intro status body resp hresp herr
  by_cases hlen : body.length = 0
  · exact ⟨"vault server error (HTTP status " ++ toString status ++
      "): empty response", by simp [RenewVaultToken, makeVaultRequest, hlen]⟩
  · refine ⟨"vault server error: " ++ String.intercalate "," resp.errors, ?_⟩
    have hpos : 0 < resp.errors.length := List.length_pos.mpr herr
    simp [RenewVaultToken, makeVaultRequest, hlen, hresp, hpos]

/-- Witness for C6: the three error cases at concrete inputs — a
connection failure, an empty body with HTTP status 503, and a decoded
response reporting `["permission denied"]`. -/
theorem renew_token_error_cases_witness :
    (∃ e, RenewVaultToken (.transportError "connection refused")
      (fun _ => .ok ⟨["permission denied"], 0⟩) = .error e) ∧
    (∃ e, RenewVaultToken (.response 503 "")
      (fun _ => .ok ⟨["permission denied"], 0⟩) = .error e) ∧
    (∃ e, RenewVaultToken (.response 403 "body")
      (fun _ => .ok ⟨["permission denied"], 0⟩) = .error e) := by
  refine ⟨?_, ?_, ?_⟩
  · exact (renew_token_error_cases
      (fun _ => .ok ⟨["permission denied"], 0⟩)).1 "connection refused"
  · exact (renew_token_error_cases
      (fun _ => .ok ⟨["permission denied"], 0⟩)).2.1 503
  · exact (renew_token_error_cases
      (fun _ => .ok ⟨["permission denied"], 0⟩)).2.2 403 "body"
      ⟨["permission denied"], 0⟩ rfl (by decide)

/-! ## Secret fetching and merging (vault.go 218–265)

`GetVaultSecrets` splits `config.Path` on `config.PathDelim` with Go's
`strings.Split` and folds `GetVaultSecretsAtPath` over the resulting
paths, merging each fetched `map[string]interface{}` into
`mergedSecrets` by plain assignment (`mergedSecrets[k] = v`), so a
later-listed path's value overwrites an earlier one's on key collision,
and returning `nil` plus the error as soon as one fetch fails.
`strings.Split` is embedded below as an executable function (Lean's own
`String.splitOn` matches its semantics for a non-empty separator but
does not reduce in the kernel). -/

/-- `chopSep sep l` is `some rest` exactly when `l = sep ++ rest`. -/
def chopSep : List Char → List Char → Option (List Char)
  | [], l => some l
  | _ :: _, [] => none
  | p :: ps, c :: cs => if c = p then chopSep ps cs else none

/-- Scanning loop of Go `strings.Split` for a non-empty separator:
at each position, either the separator matches (emit the accumulated
field, continue after the separator) or the character joins the current
field.  `fuel` bounds the scan; `length l + 1` always suffices since
every step consumes at least one character. -/
def goSplitAux (sep : List Char) : Nat → List Char → List Char → List (List Char)
  | 0, l, acc => [acc.reverse ++ l]
  | fuel + 1, l, acc =>
    match l with
    | [] => [acc.reverse]
    | c :: cs =>
      match chopSep sep (c :: cs) with
      | some rest => acc.reverse :: goSplitAux sep fuel rest []
      | none => goSplitAux sep fuel cs (c :: acc)

/-- Go `strings.Split(s, sep)` (vault.go line 225): with a non-empty
separator, split `s` around each non-overlapping instance of `sep`;
with the empty separator, Go splits after each rune.  (`vaultexec`
validates `PathDelim` non-empty before `GetVaultSecrets` runs.) -/
def stringsSplit (s sep : String) : List String :=
  if sep.data = [] then s.data.map (fun c => String.mk [c])
  else (goSplitAux sep.data (s.data.length + 1) s.data []).map String.mk

/-- A decoded Go `map[string]interface{}`, modelled extensionally as a
lookup function; `V` abstracts Go's `interface{}` value type. -/
def SecretMap (V : Type) : Type := String → Option V

/-- The fields of `VaultSecretResponse` (vault.go 28–34). -/
structure VaultSecretResponse (V : Type) where
  errors : List String
  data : SecretMap V

/-- `GetVaultSecretsAtPath` (vault.go 243–265): one `GET` to
`v1/<path>`; any request or unmarshal error propagates, reported
server-side errors become a "vault server error", otherwise the decoded
`data` map is returned. -/
def GetVaultSecretsAtPath {V : Type} (net : String → NetResult)
    (unmarshal : String → Except String (VaultSecretResponse V))
    (path : String) : Except String (SecretMap V) :=
  match makeVaultRequest (net ("v1/" ++ path)) with
  | .error e => .error e
  | .ok body =>
    match unmarshal body with
    | .error e => .error e
    | .ok resp =>
      if 0 < resp.errors.length then
        .error ("vault server error: " ++ String.intercalate "," resp.errors)
      else
        .ok resp.data

/-- `for k, v := range secrets { mergedSecrets[k] = v }` (vault.go
233–235): entries of `m` overwrite same-keyed entries of `acc`; the
nondeterministic Go map iteration order is immaterial because a map's
keys are distinct. -/
def mergeSecrets {V : Type} (acc m : SecretMap V) : SecretMap V :=
  fun k =>
    match m k with
    | some v => some v
    | none => acc k

/-- The `for _, path := range paths` loop of `GetVaultSecrets`
(vault.go 227–236): fetch each path in order, return the first error
(with no map), else fold the fetched maps into the accumulator. -/
def getVaultSecretsLoop {V : Type}
    (fetch : String → Except String (SecretMap V)) :
    List String → SecretMap V → Except String (SecretMap V)
  | [], acc => .ok acc
  | p :: rest, acc =>
    match fetch p with
    | .error e => .error e
    | .ok m => getVaultSecretsLoop fetch rest (mergeSecrets acc m)

/-- `GetVaultSecrets` (vault.go 218–239). -/
def GetVaultSecrets {V : Type} (net : String → NetResult)
    (unmarshal : String → Except String (VaultSecretResponse V))
    (cfgPath cfgDelim : String) : Except String (SecretMap V) :=
  getVaultSecretsLoop (GetVaultSecretsAtPath net unmarshal)
    (stringsSplit cfgPath cfgDelim) (fun _ => none)

/-- The data map a successful fetch of `p` returns (empty if it errs). -/
def fetchData {V : Type} (fetch : String → Except String (SecretMap V))
    (p : String) : SecretMap V :=
  match fetch p with
  | .ok m => m
  | .error _ => fun _ => none

theorem findSome_append_match {α β : Type} (l1 l2 : List α) (f : α → Option β) :
    (l1 ++ l2).findSome? f =
      match l1.findSome? f with
      | some v => some v
      | none => l2.findSome? f := by
  induction l1 with
  | nil => simp [List.findSome?]
  | cons a l ih =>
    simp only [List.cons_append, List.findSome?_cons]
    cases f a with
    | none => exact ih
    | some v => rfl

theorem getVaultSecretsLoop_error {V : Type}
    (fetch : String → Except String (SecretMap V)) :
    ∀ (paths : List String) (acc : SecretMap V),
      (∃ p ∈ paths, ∃ e, fetch p = .error e) →
      ∃ e, getVaultSecretsLoop fetch paths acc = .error e := by
  intro paths
  induction paths with
  | nil =>
    intro acc h
    obtain ⟨p, hp, _⟩ := h
    cases hp
  | cons q rest ih =>
    intro acc h
    obtain ⟨p, hp, e, he⟩ := h
    cases hfq : fetch q with
    | error e0 => exact ⟨e0, by simp [getVaultSecretsLoop, hfq]⟩
    | ok m =>
      rcases List.mem_cons.mp hp with hpq | hprest
      · subst hpq
        rw [hfq] at he
        cases he
      · have := ih (mergeSecrets acc m) ⟨p, hprest, e, he⟩
        simpa [getVaultSecretsLoop, hfq] using this

theorem getVaultSecretsLoop_ok {V : Type}
    (fetch : String → Except String (SecretMap V)) :
    ∀ (paths : List String) (acc : SecretMap V),
      (∀ p ∈ paths, ∃ m, fetch p = .ok m) →
      ∃ m, getVaultSecretsLoop fetch paths acc = .ok m ∧
        ∀ k, m k =
          match paths.reverse.findSome? (fun p => fetchData fetch p k) with
          | some v => some v
          | none => acc k := by
  intro paths
  induction paths with
  | nil =>
    intro acc _
    exact ⟨acc, rfl, fun k => by simp [List.findSome?]⟩
  | cons q rest ih =>
    intro acc h
    obtain ⟨m0, hm0⟩ := h q (List.mem_cons_self q rest)
    obtain ⟨m, hm, hk⟩ := ih (mergeSecrets acc m0)
      (fun p hp => h p (List.mem_cons_of_mem q hp))
    refine ⟨m, by simp [getVaultSecretsLoop, hm0, hm], fun k => ?_⟩
    rw [hk k]
    have hrev : (q :: rest).reverse = rest.reverse ++ [q] := by
      simp
    rw [hrev, findSome_append_match rest.reverse [q]
      (fun p => fetchData fetch p k)]
    cases hfs : rest.reverse.findSome? (fun p => fetchData fetch p k) with
    | some v => rfl
    | none =>
      simp only [List.findSome?_cons, List.findSome?]
      have hdq : fetchData fetch q k = m0 k := by
        simp [fetchData, hm0]
      cases hq : fetchData fetch q k with
      | some v =>
        rw [hdq] at hq
        simp [mergeSecrets, hq]
      | none =>
        rw [hdq] at hq
        simp [mergeSecrets, hq]

/-- C9: `GetVaultSecrets` splits the configured path on the configured
delimiter and fetches each resulting path in listed order.  If any
single fetch fails, the whole call returns an error (and no map); if
all fetches succeed it returns the merged map, in which a key's value
comes from the *last-listed* path whose map binds it — on collision the
later-listed path wins. -/
theorem getVaultSecrets_spec {V : Type} (net : String → NetResult)
    (unmarshal : String → Except String (VaultSecretResponse V))
    (cfgPath cfgDelim : String) :
    ((∃ p ∈ stringsSplit cfgPath cfgDelim,
        ∃ e, GetVaultSecretsAtPath net unmarshal p = .error e) →
      ∃ e, GetVaultSecrets net unmarshal cfgPath cfgDelim = .error e) ∧
    ((∀ p ∈ stringsSplit cfgPath cfgDelim,
        ∃ m, GetVaultSecretsAtPath net unmarshal p = .ok m) →
      ∃ m, GetVaultSecrets net unmarshal cfgPath cfgDelim = .ok m ∧
        ∀ k, m k = (stringsSplit cfgPath cfgDelim).reverse.findSome?
          (fun p => fetchData (GetVaultSecretsAtPath net unmarshal) p k)) := by
  constructor
  · intro h
    exact getVaultSecretsLoop_error (GetVaultSecretsAtPath net unmarshal)
      (stringsSplit cfgPath cfgDelim) (fun _ => none) h
  · intro h
    obtain ⟨m, hm, hk⟩ := getVaultSecretsLoop_ok
      (GetVaultSecretsAtPath net unmarshal)
      (stringsSplit cfgPath cfgDelim) (fun _ => none) h
    refine ⟨m, hm, fun k => ?_⟩
    rw [hk k]
    cases (stringsSplit cfgPath cfgDelim).reverse.findSome?
      (fun p => fetchData (GetVaultSecretsAtPath net unmarshal) p k) with
    | some v => rfl
    | none => rfl

/-- Network oracle for the C9 witness, all fetches succeeding: paths
`a` and `b` each answer with a decodable body. -/
def witNet : String → NetResult := fun q =>
  if q = "v1/a" then .response 200 "bodyA"
  else if q = "v1/b" then .response 200 "bodyB"
  else .transportError "no route to host"

/-- Network oracle for the C9 witness with path `b` failing. -/
def witNetFail : String → NetResult := fun q =>
  if q = "v1/a" then .response 200 "bodyA"
  else .transportError "connection reset"

/-- Unmarshal oracle for the C9 witness: `bodyA` binds `KEY ↦ fromA`
and `ONLYA ↦ a-only`; `bodyB` binds `KEY ↦ fromB`. -/
def witUnmarshal : String → Except String (VaultSecretResponse String) :=
  fun b =>
    if b = "bodyA" then
      .ok ⟨[], fun k =>
        if k = "KEY" then some "fromA"
        else if k = "ONLYA" then some "a-only"
        else none⟩
    else if b = "bodyB" then
      .ok ⟨[], fun k => if k = "KEY" then some "fromB" else none⟩
    else
      .error "invalid character"

/-- Witness for C9 with `Path = "a,b"`, `PathDelim = ","`: when the
fetch of `b` fails the whole call errors, and when both succeed the
merged map takes `KEY` from the later-listed `b` and keeps `ONLYA`
from `a`. -/
theorem getVaultSecrets_spec_witness :
    (∃ e, GetVaultSecrets witNetFail witUnmarshal "a,b" "," = .error e) ∧
    (∃ m, GetVaultSecrets witNet witUnmarshal "a,b" "," = .ok m ∧
      m "KEY" = some "fromB" ∧ m "ONLYA" = some "a-only") := by
  have hsplit : stringsSplit "a,b" "," = ["a", "b"] := by decide
  constructor
  · refine (getVaultSecrets_spec witNetFail witUnmarshal "a,b" ",").1 ?_
    refine ⟨"b", ?_, "connection reset", rfl⟩
    rw [hsplit]
    decide
  · have hall : ∀ p ∈ stringsSplit "a,b" ",",
        ∃ m, GetVaultSecretsAtPath witNet witUnmarshal p = .ok m := by
      intro p hp
      rw [hsplit] at hp
      rcases List.mem_cons.mp hp with h1 | hp2
      · subst h1
        exact ⟨_, rfl⟩
      · rcases List.mem_cons.mp hp2 with h2 | h3
        · subst h2
          exact ⟨_, rfl⟩
        · cases h3
    obtain ⟨m, hm, hk⟩ :=
      (getVaultSecrets_spec witNet witUnmarshal "a,b" ",").2 hall
    refine ⟨m, hm, ?_, ?_⟩
    · rw [hk "KEY", hsplit]
      rfl
    · rw [hk "ONLYA", hsplit]
      rfl

/-! ## Configuration generation (vault.go 55–107)

`GenerateVaultConfig` runs the helper command (its run outcome and
captured stdout are the `helperRun` oracle), decodes the stdout JSON
into a `VaultConfig` (absent JSON keys decode to the empty string), and
then overwrites each field of the prior config only when the decoded
value for that field is non-empty (`if len(...) > 0`).  On a run or
decode error the prior config is returned together with the error. -/

/-- `VaultConfig` (vault.go 19–24). -/
structure VaultConfig where
  Address : String
  Token : String
  Path : String
  PathDelim : String
deriving DecidableEq

/-- `GenerateVaultConfig` (vault.go 55–107), returning the Go pair
`(VaultConfig, error)`. -/
def GenerateVaultConfig (helperRun : Except String String)
    (unmarshal : String → Except String VaultConfig)
    (config : VaultConfig) : VaultConfig × Option String :=
  match helperRun with
  | .error e => (config, some e)
  | .ok stdout =>
    match unmarshal stdout with
    | .error e => (config, some e)
    | .ok out =>
      ({ Address := if 0 < out.Address.length then out.Address else config.Address
         Token := if 0 < out.Token.length then out.Token else config.Token
         Path := if 0 < out.Path.length then out.Path else config.Path
         PathDelim :=
           if 0 < out.PathDelim.length then out.PathDelim else config.PathDelim },
        none)

theorem string_eq_empty_iff_length (s : String) : s = "" ↔ s.length = 0 := by
  constructor
  · intro h
    subst h
    rfl
  · intro h
    have hdata : s.data = [] := List.length_eq_zero.mp h
    cases s with
    | mk data =>
      simp only at hdata
      rw [hdata]

/-- C10: when the helper runs and its output decodes to `out`,
`GenerateVaultConfig` overwrites a field of the prior config exactly
when `out` supplies a non-empty value for it; every field `out` leaves
empty keeps its prior value unchanged (and no error is reported). -/
theorem generate_config_frame
    (unmarshal : String → Except String VaultConfig)
    (config out : VaultConfig) (stdout : String)
    (hum : unmarshal stdout = .ok out) :
    (GenerateVaultConfig (.ok stdout) unmarshal config).2 = none ∧
    ((out.Address = "" →
        (GenerateVaultConfig (.ok stdout) unmarshal config).1.Address =
          config.Address) ∧
      (out.Address ≠ "" →
        (GenerateVaultConfig (.ok stdout) unmarshal config).1.Address =
          out.Address)) ∧
    ((out.Token = "" →
        (GenerateVaultConfig (.ok stdout) unmarshal config).1.Token =
          config.Token) ∧
      (out.Token ≠ "" →
        (GenerateVaultConfig (.ok stdout) unmarshal config).1.Token =
          out.Token)) ∧
    ((out.Path = "" →
        (GenerateVaultConfig (.ok stdout) unmarshal config).1.Path =
          config.Path) ∧
      (out.Path ≠ "" →
        (GenerateVaultConfig (.ok stdout) unmarshal config).1.Path =
          out.Path)) ∧
    ((out.PathDelim = "" →
        (GenerateVaultConfig (.ok stdout) unmarshal config).1.PathDelim =
          config.PathDelim) ∧
      (out.PathDelim ≠ "" →
        (GenerateVaultConfig (.ok stdout) unmarshal config).1.PathDelim =
          out.PathDelim)) := by
  refine ⟨by simp [GenerateVaultConfig, hum], ⟨?_, ?_⟩, ⟨?_, ?_⟩, ⟨?_, ?_⟩, ⟨?_, ?_⟩⟩ <;>
    intro h
  · simp [GenerateVaultConfig, hum, h]
  · have hpos : 0 < out.Address.length :=
      Nat.pos_of_ne_zero (fun hz => h ((string_eq_empty_iff_length _).mpr hz))
    simp [GenerateVaultConfig, hum, hpos]
  · simp [GenerateVaultConfig, hum, h]
  · have hpos : 0 < out.Token.length :=
      Nat.pos_of_ne_zero (fun hz => h ((string_eq_empty_iff_length _).mpr hz))
    simp [GenerateVaultConfig, hum, hpos]
  · simp [GenerateVaultConfig, hum, h]
  · have hpos : 0 < out.Path.length :=
      Nat.pos_of_ne_zero (fun hz => h ((string_eq_empty_iff_length _).mpr hz))
    simp [GenerateVaultConfig, hum, hpos]
  · simp [GenerateVaultConfig, hum, h]
  · have hpos : 0 < out.PathDelim.length :=
      Nat.pos_of_ne_zero (fun hz => h ((string_eq_empty_iff_length _).mpr hz))
    simp [GenerateVaultConfig, hum, hpos]

/-- Witness for C10: the helper output supplies a new address and path
but empty token and delimiter; the address and path are overwritten and
the token and delimiter keep their prior values. -/
theorem generate_config_frame_witness :
    (GenerateVaultConfig (.ok "helper-json")
        (fun s => if s = "helper-json" then
          .ok ⟨"http://new:8200", "", "new/path", ""⟩ else .error "bad json")
        ⟨"http://old:8200", "old-token", "old/path", ","⟩).1 =
      ⟨"http://new:8200", "old-token", "new/path", ","⟩ := by
  have h := generate_config_frame
    (fun s => if s = "helper-json" then
      (.ok ⟨"http://new:8200", "", "new/path", ""⟩ :
        Except String VaultConfig) else .error "bad json")
    ⟨"http://old:8200", "old-token", "old/path", ","⟩
    ⟨"http://new:8200", "", "new/path", ""⟩ "helper-json" rfl
  have ha := h.2.1.2 (by decide)
  have ht := h.2.2.1.1 rfl
  have hp := h.2.2.2.1.2 (by decide)
  have hd := h.2.2.2.2.1 rfl
  cases hres : (GenerateVaultConfig (.ok "helper-json")
      (fun s => if s = "helper-json" then
        (.ok ⟨"http://new:8200", "", "new/path", ""⟩ :
          Except String VaultConfig) else .error "bad json")
      ⟨"http://old:8200", "old-token", "old/path", ","⟩).1 with
  | mk a t p d =>
    rw [hres] at ha ht hp hd
    simp only at ha ht hp hd
    rw [ha, ht, hp, hd]
